import Mathlib

/-!
Verification of the map-plugin core: the viewport fitter (`src/calculateBounds.ts`)
and the line-syntax parser (`src/parseMapSyntax.ts`), shallowly embedded over `ℚ`
(JavaScript floating-point numbers are idealized as exact rationals) and Lean lists
of characters (JavaScript strings).
-/

attribute [local semireducible] Rat.add Rat.mul Rat.inv Rat.sub

namespace MapPlugin

/-! ## Viewport fitter: `src/calculateBounds.ts`

The `Pin` interface of `calculateBounds.ts` (`lat`, `lng`, optional `label`). -/

structure Pin where
  lat : ℚ
  lng : ℚ
  label : Option String := none
deriving DecidableEq

/-- The `{ center: [lng, lat], zoom }` result object. -/
structure Viewport where
  center : ℚ × ℚ
  zoom : ℤ
deriving DecidableEq

/-- `Math.min` on two numbers (kernel-reducible, unlike the order-theoretic `min`). -/
def qmin (a b : ℚ) : ℚ := if a < b then a else b

/-- `Math.max` on two numbers (kernel-reducible, unlike the order-theoretic `max`). -/
def qmax (a b : ℚ) : ℚ := if a < b then b else a

theorem qmin_eq_min (a b : ℚ) : qmin a b = min a b := by
  unfold qmin
  rcases le_or_lt b a with h | h
  · rw [if_neg (not_lt.mpr h), min_eq_right h]
  · rw [if_pos h, min_eq_left (le_of_lt h)]

theorem qmax_eq_max (a b : ℚ) : qmax a b = max a b := by
  unfold qmax
  rcases le_or_lt b a with h | h
  · rw [if_neg (not_lt.mpr h), max_eq_left h]
  · rw [if_pos h, max_eq_right (le_of_lt h)]

/-- `Math.min(...xs)` over a spread list (callers pass a nonempty list). -/
def listMin : List ℚ → ℚ
  | [] => 0
  | x :: xs => xs.foldl qmin x

/-- `Math.max(...xs)` over a spread list (callers pass a nonempty list). -/
def listMax : List ℚ → ℚ
  | [] => 0
  | x :: xs => xs.foldl qmax x

/-- `minLat` of `calculateBounds` (line 19). -/
def minLatOf (pins : List Pin) : ℚ := listMin (pins.map Pin.lat)

/-- `maxLat` of `calculateBounds` (line 20). -/
def maxLatOf (pins : List Pin) : ℚ := listMax (pins.map Pin.lat)

/-- `minLng` of `calculateBounds` (line 24). -/
def minLngOf (pins : List Pin) : ℚ := listMin (pins.map Pin.lng)

/-- `maxLng` of `calculateBounds` (line 25). -/
def maxLngOf (pins : List Pin) : ℚ := listMax (pins.map Pin.lng)

/-- `directSpan = maxLng - minLng` (line 30). -/
def directSpanOf (pins : List Pin) : ℚ := maxLngOf pins - minLngOf pins

/-- Lines 29–48 of `calculateBounds.ts`: the longitude center and span, with the
date-line branch taken when the direct span exceeds 180°. -/
def lngCenterSpan (pins : List Pin) : ℚ × ℚ :=
  let minLng := minLngOf pins
  let maxLng := maxLngOf pins
  let directSpan := maxLng - minLng
  if directSpan > 180 then
    let crossDateLineSpan := (minLng + 360) - maxLng
    if crossDateLineSpan < directSpan then
      let c := (minLng + maxLng + 360) / 2
      (if c > 180 then c - 360 else c, crossDateLineSpan)
    else
      ((minLng + maxLng) / 2, directSpan)
  else
    ((minLng + maxLng) / 2, directSpan)

/-- `latSpan = maxLat - minLat` (line 51). -/
def latSpanOf (pins : List Pin) : ℚ := maxLatOf pins - minLatOf pins

/-- `maxSpan = Math.max(latSpan, lngSpan)` (line 52). -/
def maxSpanOf (pins : List Pin) : ℚ := qmax (latSpanOf pins) (lngCenterSpan pins).2

/-- Lines 54–61 of `calculateBounds.ts`: the span-to-zoom table. -/
def zoomFromSpan (s : ℚ) : ℤ :=
  if s < 1/100 then 15
  else if s < 1/10 then 12
  else if s < 1 then 9
  else if s < 10 then 6
  else if s < 50 then 4
  else if s < 100 then 3
  else 2

/-- `calculateBounds` of `src/calculateBounds.ts`. -/
def calculateBounds (pins : List Pin) : Viewport :=
  match pins with
  | [] => ⟨(0, 0), 2⟩
  | [p] => ⟨(p.lng, p.lat), 15⟩
  | p :: q :: rest =>
    let ps := p :: q :: rest
    ⟨((lngCenterSpan ps).1, (minLatOf ps + maxLatOf ps) / 2), zoomFromSpan (maxSpanOf ps)⟩

theorem zoomFromSpan_range (s : ℚ) : 1 ≤ zoomFromSpan s ∧ zoomFromSpan s ≤ 18 := by
  unfold zoomFromSpan
  split_ifs <;> norm_num

theorem zoomFromSpan_antitone {s t : ℚ} (h : s ≤ t) : zoomFromSpan t ≤ zoomFromSpan s := by
  unfold zoomFromSpan
  split_ifs <;> linarith

theorem calculateBounds_zoom_eq (pins : List Pin) (h : 2 ≤ pins.length) :
    (calculateBounds pins).zoom = zoomFromSpan (maxSpanOf pins) := by
  match pins with
  | [] => simp at h
  | [p] => simp at h
  | p :: q :: rest => rfl

/-- C4: for every list of pins, the zoom returned by `calculateBounds` is an integer in
[1, 18]; and the zoom is monotonically non-increasing in the bounding span: between two
pin sets of at least two pins each, the one with the larger span never gets a larger zoom. -/
theorem calculateBounds_zoom_range_and_antitone :
    (∀ pins : List Pin, 1 ≤ (calculateBounds pins).zoom ∧ (calculateBounds pins).zoom ≤ 18) ∧
    (∀ ps qs : List Pin, 2 ≤ ps.length → 2 ≤ qs.length →
      maxSpanOf ps ≤ maxSpanOf qs →
      (calculateBounds qs).zoom ≤ (calculateBounds ps).zoom) := by
  constructor
  · intro pins
    match pins with
    | [] => exact ⟨by norm_num [calculateBounds], by norm_num [calculateBounds]⟩
    | [p] => exact ⟨by norm_num [calculateBounds], by norm_num [calculateBounds]⟩
    | p :: q :: rest =>
      have hz : (calculateBounds (p :: q :: rest)).zoom
          = zoomFromSpan (maxSpanOf (p :: q :: rest)) := rfl
      rw [hz]
      exact zoomFromSpan_range _
  · intro ps qs hp hq hspan
    rw [calculateBounds_zoom_eq ps hp, calculateBounds_zoom_eq qs hq]
    exact zoomFromSpan_antitone hspan

/-- Witness for C4 at two concrete pin sets. -/
theorem calculateBounds_zoom_range_and_antitone_witness :
    2 ≤ ([⟨0, 0, none⟩, ⟨1, 1, none⟩] : List Pin).length ∧
    2 ≤ ([⟨0, 0, none⟩, ⟨20, 30, none⟩] : List Pin).length ∧
    maxSpanOf [⟨0, 0, none⟩, ⟨1, 1, none⟩] ≤ maxSpanOf [⟨0, 0, none⟩, ⟨20, 30, none⟩] ∧
    (calculateBounds [⟨0, 0, none⟩, ⟨20, 30, none⟩]).zoom
      ≤ (calculateBounds [⟨0, 0, none⟩, ⟨1, 1, none⟩]).zoom :=
  ⟨by decide, by decide, by decide,
    calculateBounds_zoom_range_and_antitone.2 _ _ (by decide) (by decide) (by decide)⟩

/-- C10: whenever the direct longitude span exceeds 180°, the wrapped span
`(minLng + 360) - maxLng` equals `360 - directSpan` and is strictly smaller than the
direct span, so inside the date-line branch of `calculateBounds` the wrapped path is
always taken: the longitude center and span are the wrapped ones, and the inner
fallback to the direct midpoint and span is unreachable. -/
theorem calculateBounds_dateline_fallback_unreachable :
    ∀ pins : List Pin, 2 ≤ pins.length →
      (∀ p ∈ pins, -180 ≤ p.lng ∧ p.lng ≤ 180) →
      180 < directSpanOf pins →
      (minLngOf pins + 360) - maxLngOf pins = 360 - directSpanOf pins ∧
      (minLngOf pins + 360) - maxLngOf pins < directSpanOf pins ∧
      lngCenterSpan pins =
        (if (minLngOf pins + maxLngOf pins + 360) / 2 > 180
          then (minLngOf pins + maxLngOf pins + 360) / 2 - 360
          else (minLngOf pins + maxLngOf pins + 360) / 2,
         (minLngOf pins + 360) - maxLngOf pins) := by
  intro pins _ _ hspan
  unfold directSpanOf at hspan
  refine ⟨by unfold directSpanOf; ring, by unfold directSpanOf; linarith, ?_⟩
  unfold lngCenterSpan
  rw [if_pos (by linarith), if_pos (by linarith)]

/-- Witness for C10: Honolulu and Auckland, whose direct span exceeds 180°. -/
theorem calculateBounds_dateline_fallback_unreachable_witness :
    2 ≤ ([⟨213099/10000, -1578581/10000, none⟩, ⟨-368485/10000, 1747633/10000, none⟩] :
        List Pin).length ∧
    (∀ p ∈ ([⟨213099/10000, -1578581/10000, none⟩, ⟨-368485/10000, 1747633/10000, none⟩] :
        List Pin), -180 ≤ p.lng ∧ p.lng ≤ 180) ∧
    180 < directSpanOf [⟨213099/10000, -1578581/10000, none⟩,
        ⟨-368485/10000, 1747633/10000, none⟩] ∧
    lngCenterSpan [⟨213099/10000, -1578581/10000, none⟩,
        ⟨-368485/10000, 1747633/10000, none⟩] =
      (if (minLngOf [⟨213099/10000, -1578581/10000, none⟩, ⟨-368485/10000, 1747633/10000, none⟩]
            + maxLngOf [⟨213099/10000, -1578581/10000, none⟩, ⟨-368485/10000, 1747633/10000, none⟩]
            + 360) / 2 > 180
        then (minLngOf [⟨213099/10000, -1578581/10000, none⟩, ⟨-368485/10000, 1747633/10000, none⟩]
            + maxLngOf [⟨213099/10000, -1578581/10000, none⟩, ⟨-368485/10000, 1747633/10000, none⟩]
            + 360) / 2 - 360
        else (minLngOf [⟨213099/10000, -1578581/10000, none⟩, ⟨-368485/10000, 1747633/10000, none⟩]
            + maxLngOf [⟨213099/10000, -1578581/10000, none⟩, ⟨-368485/10000, 1747633/10000, none⟩]
            + 360) / 2,
       (minLngOf [⟨213099/10000, -1578581/10000, none⟩, ⟨-368485/10000, 1747633/10000, none⟩]
          + 360)
        - maxLngOf [⟨213099/10000, -1578581/10000, none⟩, ⟨-368485/10000, 1747633/10000, none⟩]) :=
  ⟨by decide, by decide, by decide,
    (calculateBounds_dateline_fallback_unreachable _ (by decide) (by decide) (by decide)).2.2⟩

/-! ## The richer viewport fitter, modelled from the spec

The specification's §4.3 describes a richer variant of `calculateBounds` —
`fit(pins, width = 400, height = 400)` with a ±150° antimeridian guard, adaptive
padding, per-axis tile-pyramid zooms and a zoom range of [1, 18].  That variant is
not among the provided source files (only the simpler `src/calculateBounds.ts`
above is), so it is modelled here from the specification's words. -/

/-- Modelled from the spec: clamping a latitude into `[lo, hi]` (spec §4.3 step 6,
"each clamped to ±85°"). -/
def clampQ (lo hi x : ℚ) : ℚ := qmax lo (qmin hi x)

/-- Modelled from the spec: §4.3 step 2 — antimeridian handling with the ±150°
guard.  Wraparound is considered only when `directSpan > 180` and `minLng < -150`
and `maxLng > 150`; when it applies and the wrapped span `360 - directSpan` is
smaller, the wrapped span and recomputed center are used, otherwise the direct
midpoint and span. -/
def fitLngCenterSpan (pins : List Pin) : ℚ × ℚ :=
  let minLng := minLngOf pins
  let maxLng := maxLngOf pins
  let directSpan := maxLng - minLng
  if directSpan > 180 ∧ minLng < -150 ∧ maxLng > 150 then
    let wrappedSpan := 360 - directSpan
    if wrappedSpan < directSpan then
      let c := (minLng + 360 + maxLng) / 2
      (if c > 180 then c - 360 else c, wrappedSpan)
    else ((minLng + maxLng) / 2, directSpan)
  else ((minLng + maxLng) / 2, directSpan)

/-- Modelled from the spec: §4.3 step 4 — adaptive padding as a function of an
axis span `s`. -/
def fitPadding (s : ℚ) : ℚ :=
  if s < 1/1000 then 1/10000
  else if s < 1/100 then qmax (s * (8/100)) (5/10000)
  else if s < 1 then s * (4/100)
  else s * (3/100)

/-- Modelled from the spec: §4.3 step 6 — the Mercator y-coordinate
`y = ln(tan((90 + lat)·π/360))`. -/
noncomputable def mercatorY (lat : ℚ) : ℝ :=
  Real.log (Real.tan ((90 + (lat : ℝ)) * Real.pi / 360))

/-- Modelled from the spec: §4.3 step 5 — the zoom at which the padded longitude
span exactly fills `width` pixels, with 256-pixel base tiles at zoom 0. -/
noncomputable def zoomFromLongitude (paddedLngSpan width : ℚ) : ℝ :=
  Real.logb 2 ((width : ℝ) * 360 / (256 * (paddedLngSpan : ℝ)))

/-- Modelled from the spec: §4.3 step 6 — the zoom at which the Mercator span of
the padded latitude bounds (each clamped to ±85°) fills `height` pixels,
normalized against the total Mercator height spanning ±85°. -/
noncomputable def zoomFromLatitude (minLat maxLat padLat height : ℚ) : ℝ :=
  Real.logb 2 ((height : ℝ) * (mercatorY 85 - mercatorY (-85)) /
    (256 * (mercatorY (clampQ (-85) 85 (maxLat + padLat)) -
            mercatorY (clampQ (-85) 85 (minLat - padLat)))))

/-- Modelled from the spec: §4.3 — the richer viewport fitter
`fit(pins, width, height)` (both pixel sizes default to 400 at the call sites,
see `fitDefault`). -/
noncomputable def fit (pins : List Pin) (width height : ℚ) : Viewport :=
  match pins with
  | [] => ⟨(0, 0), 2⟩
  | [p] => ⟨(p.lng, p.lat), 15⟩
  | p :: q :: rest =>
    let ps := p :: q :: rest
    let (centerLng, lngSpan) := fitLngCenterSpan ps
    let latSpan := latSpanOf ps
    let zLng := zoomFromLongitude (lngSpan + 2 * fitPadding lngSpan) width
    let zLat := zoomFromLatitude (minLatOf ps) (maxLatOf ps) (fitPadding latSpan) height
    ⟨(centerLng, (minLatOf ps + maxLatOf ps) / 2), max 1 (min 18 ⌊min zLng zLat⌋)⟩

/-- Modelled from the spec: §4.3's contract `fit(pins, width = 400, height = 400)`. -/
noncomputable def fitDefault (pins : List Pin) : Viewport := fit pins 400 400

/-- C1: the fitter considers antimeridian wraparound only when
`directSpan > 180 ∧ minLng < -150 ∧ maxLng > 150`; whenever that conjunction
fails — in particular for a pin set whose direct span exceeds 180° but whose
longitude extremes are not both near the antimeridian — the returned center
longitude is the direct midpoint `(minLng + maxLng)/2` and the longitude span
used is the direct span. -/
theorem fit_no_wrap_without_antimeridian_extremes :
    ∀ (pins : List Pin) (width height : ℚ), 2 ≤ pins.length →
      (∀ p ∈ pins, -180 ≤ p.lng ∧ p.lng ≤ 180) →
      ¬(directSpanOf pins > 180 ∧ minLngOf pins < -150 ∧ maxLngOf pins > 150) →
      (fit pins width height).center.1 = (minLngOf pins + maxLngOf pins) / 2 ∧
      (fitLngCenterSpan pins).2 = directSpanOf pins := by
  intro pins width height hlen _ hcond
  have hspan : fitLngCenterSpan pins =
      ((minLngOf pins + maxLngOf pins) / 2, directSpanOf pins) := by
    unfold fitLngCenterSpan directSpanOf
    rw [if_neg]
    exact fun h => hcond ⟨h.1, h.2⟩
  refine ⟨?_, by rw [hspan]⟩
  match pins with
  | [] => simp at hlen
  | [p] => simp at hlen
  | p :: q :: rest =>
    show (fitLngCenterSpan (p :: q :: rest)).1 = _
    rw [hspan]

/-- Witness for C1: New York (lng −73.9851) and Melbourne (lng 144.9631) — the
direct span exceeds 180° but the extremes are not both near the antimeridian, so
the direct midpoint and span are used. -/
theorem fit_no_wrap_without_antimeridian_extremes_witness :
    2 ≤ ([⟨407589/10000, -739851/10000, none⟩, ⟨-378136/10000, 1449631/10000, none⟩] :
        List Pin).length ∧
    (∀ p ∈ ([⟨407589/10000, -739851/10000, none⟩, ⟨-378136/10000, 1449631/10000, none⟩] :
        List Pin), -180 ≤ p.lng ∧ p.lng ≤ 180) ∧
    directSpanOf [⟨407589/10000, -739851/10000, none⟩, ⟨-378136/10000, 1449631/10000, none⟩]
      > 180 ∧
    ¬(directSpanOf [⟨407589/10000, -739851/10000, none⟩, ⟨-378136/10000, 1449631/10000, none⟩]
        > 180 ∧
      minLngOf [⟨407589/10000, -739851/10000, none⟩, ⟨-378136/10000, 1449631/10000, none⟩]
        < -150 ∧
      maxLngOf [⟨407589/10000, -739851/10000, none⟩, ⟨-378136/10000, 1449631/10000, none⟩]
        > 150) ∧
    (fit [⟨407589/10000, -739851/10000, none⟩, ⟨-378136/10000, 1449631/10000, none⟩]
        400 400).center.1 =
      (minLngOf [⟨407589/10000, -739851/10000, none⟩, ⟨-378136/10000, 1449631/10000, none⟩] +
       maxLngOf [⟨407589/10000, -739851/10000, none⟩, ⟨-378136/10000, 1449631/10000, none⟩]) / 2 :=
  ⟨by decide, by decide, by decide, by decide,
    (fit_no_wrap_without_antimeridian_extremes _ 400 400 (by decide) (by decide) (by decide)).1⟩

/-- C2: for two or more pins the fitter's zoom is obtained by padding each axis span
`s` with the piecewise rule (`s < 0.001` → fixed `0.0001`; `0.001 ≤ s < 0.01` →
`max(s·0.08, 0.0005)`; `0.01 ≤ s < 1` → `s·0.04`; `s ≥ 1` → `s·0.03`; padded span =
raw span + 2·padding, applied independently to the latitude span and the
post-wraparound longitude span), solving the 256-pixel tile-pyramid zoom for the
longitude axis and the Mercator zoom (latitudes clamped to ±85°) for the latitude
axis, and returning `⌊min(zoomFromLongitude, zoomFromLatitude)⌋` clamped to [1, 18];
`fitDefault` is the `width = height = 400` default of the contract. -/
theorem fit_zoom_padding_tile_pyramid :
    (∀ pins : List Pin, fitDefault pins = fit pins 400 400) ∧
    (∀ s : ℚ, fitPadding s =
      if s < 1/1000 then 1/10000
      else if s < 1/100 then max (s * (8/100)) (5/10000)
      else if s < 1 then s * (4/100)
      else s * (3/100)) ∧
    (∀ paddedLngSpan width : ℚ, zoomFromLongitude paddedLngSpan width =
      Real.logb 2 ((width : ℝ) * 360 / (256 * (paddedLngSpan : ℝ)))) ∧
    (∀ minLat maxLat padLat height : ℚ, zoomFromLatitude minLat maxLat padLat height =
      Real.logb 2 ((height : ℝ) *
        (Real.log (Real.tan ((90 + ((85 : ℚ) : ℝ)) * Real.pi / 360)) -
         Real.log (Real.tan ((90 + ((-85 : ℚ) : ℝ)) * Real.pi / 360))) /
        (256 *
          (Real.log (Real.tan ((90 + ((max (-85) (min 85 (maxLat + padLat)) : ℚ) : ℝ)) *
             Real.pi / 360)) -
           Real.log (Real.tan ((90 + ((max (-85) (min 85 (minLat - padLat)) : ℚ) : ℝ)) *
             Real.pi / 360)))))) ∧
    (∀ (pins : List Pin) (width height : ℚ), 2 ≤ pins.length →
      (fit pins width height).zoom =
        max 1 (min 18 ⌊min
          (zoomFromLongitude
            ((fitLngCenterSpan pins).2 + 2 * fitPadding (fitLngCenterSpan pins).2) width)
          (zoomFromLatitude (minLatOf pins) (maxLatOf pins)
            (fitPadding (latSpanOf pins)) height)⌋)) := by
  refine ⟨fun _ => rfl, ?_, fun _ _ => rfl, ?_, ?_⟩
  · intro s
    simp only [fitPadding, qmax_eq_max]
  · intro minLat maxLat padLat height
    simp only [zoomFromLatitude, mercatorY, clampQ, qmax_eq_max, qmin_eq_min]
  · intro pins width height hlen
    match pins with
    | [] => simp at hlen
    | [p] => simp at hlen
    | p :: q :: rest => rfl

/-- Witness for C2 at a concrete two-pin set. -/
theorem fit_zoom_padding_tile_pyramid_witness :
    2 ≤ ([⟨0, 0, none⟩, ⟨1, 2, none⟩] : List Pin).length ∧
    (fit [⟨0, 0, none⟩, ⟨1, 2, none⟩] 400 400).zoom =
      max 1 (min 18 ⌊min
        (zoomFromLongitude
          ((fitLngCenterSpan [⟨0, 0, none⟩, ⟨1, 2, none⟩]).2 +
            2 * fitPadding (fitLngCenterSpan [⟨0, 0, none⟩, ⟨1, 2, none⟩]).2) 400)
        (zoomFromLatitude (minLatOf [⟨0, 0, none⟩, ⟨1, 2, none⟩])
          (maxLatOf [⟨0, 0, none⟩, ⟨1, 2, none⟩])
          (fitPadding (latSpanOf [⟨0, 0, none⟩, ⟨1, 2, none⟩])) 400)⌋) :=
  ⟨by decide,
    fit_zoom_padding_tile_pyramid.2.2.2.2 [⟨0, 0, none⟩, ⟨1, 2, none⟩] 400 400 (by decide)⟩

/-! ## Line-syntax parser: `src/parseMapSyntax.ts`

JavaScript strings are modelled through their character lists; `String.prototype.trim`,
`split("\n")`, `toUpperCase`, `substring` and friends are given explicit list-based
embeddings so that everything evaluates inside the kernel. -/

/-- JavaScript whitespace as far as `trim`/`\s` are concerned (ASCII blanks plus
no-break space and BOM; exotic Unicode spaces are out of the model). -/
def isJsWs (c : Char) : Bool :=
  c = ' ' ∨ c = '\t' ∨ c = '\n' ∨ c = '\r' ∨ c = '\x0b' ∨ c = '\x0c' ∨
    c = ' ' ∨ c = '﻿'

/-- Leading-and-trailing whitespace removal on character lists. -/
def trimChars (cs : List Char) : List Char :=
  (((cs.dropWhile isJsWs).reverse.dropWhile isJsWs)).reverse

/-- `String.prototype.trim`. -/
def jsTrim (s : String) : String := ⟨trimChars s.data⟩

/-- `String.prototype.substring(0, n)`. -/
def strTake (s : String) (n : ℕ) : String := ⟨s.data.take n⟩

/-- `String.prototype.substring(n)`. -/
def strDrop (s : String) (n : ℕ) : String := ⟨s.data.drop n⟩

/-- `String.prototype.toUpperCase` (ASCII; the inputs it is applied to are
alphanumeric ASCII by construction). -/
def strUpper (s : String) : String := ⟨s.data.map Char.toUpper⟩

/-- `needle` occurs at the front of the list. -/
def listLeads : List Char → List Char → Bool
  | [], _ => true
  | _ :: _, [] => false
  | a :: as, b :: bs => a = b ∧ listLeads as bs

/-- `String.prototype.split("\n")` on character lists. -/
def splitNL : List Char → List (List Char)
  | [] => [[]]
  | c :: rest =>
    match splitNL rest with
    | [] => [[]]
    | h :: t => if c = '\n' then [] :: h :: t else (c :: h) :: t

theorem dropWhile_idem (p : Char → Bool) (l : List Char) :
    (l.dropWhile p).dropWhile p = l.dropWhile p := by
  induction l with
  | nil => rfl
  | cons a t ih =>
    by_cases h : p a
    · simp [List.dropWhile_cons, h, ih]
    · simp [List.dropWhile_cons, h]

theorem dropWhile_suffix_aux (p : Char → Bool) (l : List Char) :
    ∃ n, l.dropWhile p = l.drop n := by
  induction l with
  | nil => exact ⟨0, rfl⟩
  | cons a t ih =>
    by_cases h : p a
    · obtain ⟨n, hn⟩ := ih
      exact ⟨n + 1, by simp [List.dropWhile_cons, h, hn]⟩
    · exact ⟨0, by simp [List.dropWhile_cons, h]⟩

/-- A nonempty result of `dropWhile` over `l ++ [a]` still ends in `a`, so its
reverse starts with `a`. -/
theorem dropWhile_concat_shape (p : Char → Bool) (l : List Char) (a : Char) :
    (((l ++ [a]).dropWhile p)).reverse = [] ∨
      ∃ u, (((l ++ [a]).dropWhile p)).reverse = a :: u := by
  obtain ⟨n, hn⟩ := dropWhile_suffix_aux p (l ++ [a])
  rw [hn]
  by_cases hle : n ≤ l.length
  · right
    rw [List.drop_append_of_le_length hle, List.reverse_append]
    exact ⟨(l.drop n).reverse, rfl⟩
  · left
    have : l.length + 1 ≤ n ∨ n = l.length + 1 ∨ l.length + 1 ≤ n := by omega
    have hlen : (l ++ [a]).length ≤ n := by
      simp only [List.length_append, List.length_cons, List.length_nil]
      omega
    rw [List.drop_eq_nil_of_le hlen]
    rfl

/-- If a list does not start with whitespace, neither does its end-trimmed form. -/
theorem dropWhile_of_endTrimmed (A : List Char) (hA : A.dropWhile isJsWs = A) :
    ((A.reverse.dropWhile isJsWs).reverse).dropWhile isJsWs
      = (A.reverse.dropWhile isJsWs).reverse := by
  match A with
  | [] => rfl
  | a :: t =>
    have hpa : isJsWs a = false := by
      have := List.dropWhile_eq_self_iff.mp hA (by simp)
      simpa using this
    have hshape := dropWhile_concat_shape isJsWs t.reverse a
    simp only [List.reverse_cons]
    rcases hshape with h | ⟨u, h⟩
    · rw [h]; rfl
    · rw [h, List.dropWhile_cons, if_neg (by simp [hpa])]

/-- `trimChars` is idempotent: its output neither starts nor ends with whitespace. -/
theorem trimChars_idem (cs : List Char) : trimChars (trimChars cs) = trimChars cs := by
  unfold trimChars
  rw [dropWhile_of_endTrimmed (cs.dropWhile isJsWs) (dropWhile_idem _ _),
    List.reverse_reverse, dropWhile_idem]

theorem jsTrim_idem (s : String) : jsTrim (jsTrim s) = jsTrim s := by
  unfold jsTrim
  exact congrArg String.mk (trimChars_idem s.data)

/-- Value of a run of decimal digits. -/
def digitsVal (ds : List Char) : ℕ :=
  ds.foldl (fun a c => a * 10 + (c.toNat - '0'.toNat)) 0

/-- `parseFloat`: longest valid decimal-literal prefix after leading whitespace,
`none` for `NaN`.  (The `Infinity` literal and IEEE rounding are outside this exact
rational idealization.) -/
def parseFloat (s : String) : Option ℚ :=
  let cs := s.data.dropWhile isJsWs
  let sgnCs : ℚ × List Char :=
    match cs with
    | '-' :: r => (-1, r)
    | '+' :: r => (1, r)
    | _ => (1, cs)
  let ip := sgnCs.2.takeWhile Char.isDigit
  let r1 := sgnCs.2.dropWhile Char.isDigit
  let fpr2 : List Char × List Char :=
    match r1 with
    | '.' :: rr => (rr.takeWhile Char.isDigit, rr.dropWhile Char.isDigit)
    | _ => ([], r1)
  if ip = [] ∧ fpr2.1 = [] then none
  else
    let mant : ℚ := (digitsVal ip : ℚ) + Rat.divInt (digitsVal fpr2.1) (10 ^ fpr2.1.length)
    let expo : ℤ :=
      match fpr2.2 with
      | 'e' :: rr | 'E' :: rr =>
        let esgnCs : ℤ × List Char :=
          match rr with
          | '-' :: q => (-1, q)
          | '+' :: q => (1, q)
          | _ => (1, rr)
        let ed := esgnCs.2.takeWhile Char.isDigit
        if ed = [] then 0 else esgnCs.1 * digitsVal ed
      | _ => 0
    some (sgnCs.1 * mant *
      (if expo < 0 then Rat.divInt 1 (10 ^ expo.natAbs) else ((10 : ℚ) ^ expo.natAbs)))

/-- The scanner state of `findCommentIndex` (lines 231–234): quote state, current
quote character, brace depth and backslash-escape flag. -/
structure ScanState where
  insideQuotes : Bool
  quoteChar : Char
  braceDepth : ℤ
  escaped : Bool
deriving DecidableEq

/-- The initial scanner state (`insideQuotes = false`, `quoteChar = ''` modelled by a
blank, `braceDepth = 0`, `escaped = false`). -/
def scanInit : ScanState := ⟨false, ' ', 0, false⟩

/-- One step of the `findCommentIndex` loop body (lines 236–267), minus the early
return: how the state evolves past one character. -/
def scanStep (st : ScanState) (c : Char) : ScanState :=
  if st.escaped then { st with escaped := false }
  else if c = '\\' then { st with escaped := true }
  else if st.insideQuotes then
    if c = st.quoteChar then { st with insideQuotes := false, quoteChar := ' ' } else st
  else if c = '"' ∨ c = '\'' then { st with insideQuotes := true, quoteChar := c }
  else if c = '{' then { st with braceDepth := st.braceDepth + 1 }
  else if c = '}' then { st with braceDepth := st.braceDepth - 1 }
  else st

/-- The loop of `findCommentIndex`: return the current index on an unescaped,
unquoted `#` at brace depth 0 (the line-262 branch), otherwise advance the state. -/
def findCommentIndexGo : ScanState → ℕ → List Char → Option ℕ
  | _, _, [] => none
  | st, i, c :: rest =>
    if st.escaped = false ∧ st.insideQuotes = false ∧ st.braceDepth = 0 ∧ c = '#'
    then some i
    else findCommentIndexGo (scanStep st c) (i + 1) rest

/-- `findCommentIndex` (lines 230–270); `none` stands for the JavaScript `-1`. -/
def findCommentIndex (line : String) : Option ℕ :=
  findCommentIndexGo scanInit 0 line.data

/-- The scanner state after the first `j` characters of the line. -/
def scanStateAt (cs : List Char) (j : ℕ) : ScanState :=
  (cs.take j).foldl scanStep scanInit

/-- Position `j` holds a `#` that is outside every quoted string and every brace
block (and not escape-consumed): exactly the situation in which the scanner is
allowed to start a comment there. -/
@[reducible] def clearHashAt (cs : List Char) (j : ℕ) : Prop :=
  cs.get? j = some '#' ∧ (scanStateAt cs j).escaped = false ∧
    (scanStateAt cs j).insideQuotes = false ∧ (scanStateAt cs j).braceDepth = 0

/-- The bracket match `^\[([^\]]+)\](.*)$` (line 298): contents up to the first `]`
(nonempty), and the remainder after it. -/
def bracketSplit (w : String) : Option (String × String) :=
  match w.data with
  | '[' :: rest =>
    let contents := rest.takeWhile (· ≠ ']')
    match rest.dropWhile (· ≠ ']') with
    | ']' :: rem => if contents = [] then none else some (⟨contents⟩, ⟨rem⟩)
    | _ => none
  | _ => none

/-- `[A-Z0-9]` under the `/i` flag. -/
def isAlnumU (c : Char) : Bool := c.isAlpha ∨ c.isDigit

/-- The Plus-Code match `^([A-Z0-9]{4,}\+[A-Z0-9]{2,})(.*)$/i` (line 304): a run of
at least 4 alphanumerics, `+`, a run of at least 2 alphanumerics, and the rest. -/
def plusCodeSplit (contents : String) : Option (String × String) :=
  let cs := contents.data
  let run1 := cs.takeWhile isAlnumU
  let rest1 := cs.dropWhile isAlnumU
  match rest1 with
  | '+' :: after =>
    let run2 := after.takeWhile isAlnumU
    let rest2 := after.dropWhile isAlnumU
    if 4 ≤ run1.length ∧ 2 ≤ run2.length
    then some (⟨run1 ++ '+' :: run2⟩, ⟨rest2⟩)
    else none
  | _ => none

/-- The coordinate match `^([^,]+),\s*([^,]+)$` (line 330): a nonempty comma-free
first field, the comma, optional whitespace, and a nonempty comma-free second field
(the whitespace skip backtracks to leave the second field nonempty). -/
def coordSplit (contents : String) : Option (String × String) :=
  let cs := contents.data
  let a := cs.takeWhile (· ≠ ',')
  match cs.dropWhile (· ≠ ',') with
  | ',' :: r =>
    if a = [] ∨ r = [] ∨ ',' ∈ r then none
    else
      let wsCount := (r.takeWhile isJsWs).length
      let skip := if wsCount = r.length then r.length - 1 else wsCount
      some (⟨a⟩, ⟨r.drop skip⟩)
  | _ => none

/-- `parseLabel` (lines 459–471): trim, and strip one matching pair of surrounding
straight quotes. -/
def parseLabel (labelStr : String) : String :=
  let t := (jsTrim labelStr).data
  if (t.head? = some '"' ∧ t.getLast? = some '"') ∨
      (t.head? = some '\'' ∧ t.getLast? = some '\'')
  then ⟨(t.drop 1).dropLast⟩
  else ⟨t⟩

/-! ### Strict JSON (`JSON.parse`) -/

/-- JSON values as produced by `JSON.parse`. -/
inductive Json where
  | null : Json
  | bool (b : Bool) : Json
  | num (q : ℚ) : Json
  | str (s : String) : Json
  | arr (elems : List Json) : Json
  | obj (members : List (String × Json)) : Json

/-- JSON insignificant whitespace. -/
def jsonWsChar (c : Char) : Bool := c = ' ' ∨ c = '\t' ∨ c = '\n' ∨ c = '\r'

def jsonSkipWs (cs : List Char) : List Char := cs.dropWhile jsonWsChar

/-- Hexadecimal digit value. -/
def hexVal (c : Char) : Option ℕ :=
  if c.isDigit then some (c.toNat - '0'.toNat)
  else if 'a' ≤ c ∧ c ≤ 'f' then some (c.toNat - 'a'.toNat + 10)
  else if 'A' ≤ c ∧ c ≤ 'F' then some (c.toNat - 'A'.toNat + 10)
  else none

/-- The body of a JSON string after its opening quote: content and what follows the
closing quote (fuel-bounded; each step consumes at least one character).  Escapes
per JSON; raw control characters are rejected.  (`\uXXXX` surrogate pairing is out
of the model: each escape becomes one code point.) -/
def jsonStringGo : ℕ → List Char → List Char → Option (List Char × List Char)
  | 0, _, _ => none
  | _ + 1, _, [] => none
  | _ + 1, acc, '"' :: rest => some (acc.reverse, rest)
  | fuel + 1, acc, '\\' :: e :: rest =>
    if e = '"' then jsonStringGo fuel ('"' :: acc) rest
    else if e = '\\' then jsonStringGo fuel ('\\' :: acc) rest
    else if e = '/' then jsonStringGo fuel ('/' :: acc) rest
    else if e = 'b' then jsonStringGo fuel ('\x08' :: acc) rest
    else if e = 'f' then jsonStringGo fuel ('\x0c' :: acc) rest
    else if e = 'n' then jsonStringGo fuel ('\n' :: acc) rest
    else if e = 'r' then jsonStringGo fuel ('\r' :: acc) rest
    else if e = 't' then jsonStringGo fuel ('\t' :: acc) rest
    else if e = 'u' then
      match rest with
      | h1 :: h2 :: h3 :: h4 :: rest2 =>
        match hexVal h1, hexVal h2, hexVal h3, hexVal h4 with
        | some a, some b, some c, some d =>
          jsonStringGo fuel (Char.ofNat (((a * 16 + b) * 16 + c) * 16 + d) :: acc) rest2
        | _, _, _, _ => none
      | _ => none
    else none
  | fuel + 1, acc, c :: rest =>
    if c.toNat < 32 then none else jsonStringGo fuel (c :: acc) rest

/-- A JSON string body, with enough fuel for its own input. -/
def jsonStringRest (acc cs : List Char) : Option (List Char × List Char) :=
  jsonStringGo (cs.length + 1) acc cs

/-- A strict JSON number (`-?(0|[1-9][0-9]*)(\.[0-9]+)?([eE][+-]?[0-9]+)?`). -/
def jsonNumber (cs : List Char) : Option (ℚ × List Char) :=
  let sgnCs : ℚ × List Char := match cs with | '-' :: r => (-1, r) | _ => (1, cs)
  let ip := sgnCs.2.takeWhile Char.isDigit
  let r1 := sgnCs.2.dropWhile Char.isDigit
  if ip = [] then none
  else if 2 ≤ ip.length ∧ ip.head? = some '0' then none
  else
    let fpr : Option (List Char × List Char) :=
      match r1 with
      | '.' :: rr =>
        let fp := rr.takeWhile Char.isDigit
        if fp = [] then none else some (fp, rr.dropWhile Char.isDigit)
      | _ => some ([], r1)
    match fpr with
    | none => none
    | some (fp, r2) =>
      let er : Option (ℤ × List Char) :=
        match r2 with
        | 'e' :: rr | 'E' :: rr =>
          let esgnCs : ℤ × List Char :=
            match rr with
            | '-' :: q => (-1, q)
            | '+' :: q => (1, q)
            | _ => (1, rr)
          let ed := esgnCs.2.takeWhile Char.isDigit
          if ed = [] then none
          else some (esgnCs.1 * digitsVal ed, esgnCs.2.dropWhile Char.isDigit)
        | _ => some (0, r2)
      match er with
      | none => none
      | some (ex, r3) =>
        some (sgnCs.1 * ((digitsVal ip : ℚ) + Rat.divInt (digitsVal fp) (10 ^ fp.length)) *
          (if ex < 0 then Rat.divInt 1 (10 ^ ex.natAbs) else (10 : ℚ) ^ ex.natAbs), r3)

mutual

/-- A JSON value (fuel-bounded recursive descent). -/
def jsonValue : ℕ → List Char → Option (Json × List Char)
  | 0, _ => none
  | fuel + 1, cs =>
    match jsonSkipWs cs with
    | '{' :: rest =>
      match jsonSkipWs rest with
      | '}' :: r2 => some (.obj [], r2)
      | _ => jsonMembers fuel rest []
    | '[' :: rest =>
      match jsonSkipWs rest with
      | ']' :: r2 => some (.arr [], r2)
      | _ => jsonElems fuel rest []
    | '"' :: rest => (jsonStringRest [] rest).map (fun p => (.str ⟨p.1⟩, p.2))
    | 't' :: 'r' :: 'u' :: 'e' :: rest => some (.bool true, rest)
    | 'f' :: 'a' :: 'l' :: 's' :: 'e' :: rest => some (.bool false, rest)
    | 'n' :: 'u' :: 'l' :: 'l' :: rest => some (.null, rest)
    | cs2 => (jsonNumber cs2).map (fun p => (.num p.1, p.2))

/-- The members of a JSON object after its opening brace (at least one member). -/
def jsonMembers : ℕ → List Char → List (String × Json) → Option (Json × List Char)
  | 0, _, _ => none
  | fuel + 1, cs, acc =>
    match jsonSkipWs cs with
    | '"' :: rest =>
      match jsonStringRest [] rest with
      | none => none
      | some (k, r1) =>
        match jsonSkipWs r1 with
        | ':' :: r2 =>
          match jsonValue fuel r2 with
          | none => none
          | some (v, r3) =>
            match jsonSkipWs r3 with
            | ',' :: r4 => jsonMembers fuel r4 (acc ++ [(⟨k⟩, v)])
            | '}' :: r4 => some (.obj (acc ++ [(⟨k⟩, v)]), r4)
            | _ => none
        | _ => none
    | _ => none

/-- The elements of a JSON array after its opening bracket (at least one element). -/
def jsonElems : ℕ → List Char → List Json → Option (Json × List Char)
  | 0, _, _ => none
  | fuel + 1, cs, acc =>
    match jsonValue fuel cs with
    | none => none
    | some (v, r1) =>
      match jsonSkipWs r1 with
      | ',' :: r2 => jsonElems fuel r2 (acc ++ [v])
      | ']' :: r2 => some (.arr (acc ++ [v]), r2)
      | _ => none

end

/-- `JSON.parse`: one value, with nothing but whitespace around it. -/
def jsonParse (s : String) : Option Json :=
  match jsonValue (s.data.length + 1) s.data with
  | some (v, rest) => if jsonSkipWs rest = [] then some v else none
  | none => none

/-- Property access on a decoded JSON value: objects only, duplicate keys resolved
to the last occurrence, as `JSON.parse` materializes them. -/
def jsonLookup (j : Json) (k : String) : Option Json :=
  match j with
  | .obj kvs => (kvs.reverse.find? (fun kv => kv.1 = k)).map (fun kv => kv.2)
  | _ => none

/-! ### The `MapPin` data model and helpers of `parseMapSyntax.ts` -/

/-- The `MapPin` interface (lines 145–154). -/
structure MapPin where
  lat : ℚ
  lng : ℚ
  label : Option String := none
  color : Option String := none
  icon : Option String := none
  group : Option String := none
  description : Option String := none
  plusCode : Option String := none
deriving DecidableEq

/-- The `MapConfig` interface (lines 156–158). -/
structure MapConfig where
  mapLayerURL : Option String := none
deriving DecidableEq

/-- The `ParsedMapData` interface (lines 160–164). -/
structure ParsedMapData where
  pins : List MapPin
  errors : List String
  config : Option MapConfig := none

/-- The truthy-string test `attributes.k && typeof attributes.k === "string"`
(lines 377–391): a string value that is nonempty (the empty string is falsy). -/
def attrString (a : Json) (k : String) : Option String :=
  match jsonLookup a k with
  | some (.str s) => if s = "" then none else some s
  | _ => none

/-- Lines 376–392: copy the recognized string-typed attributes onto the pin.  The
`typeof attributes === "object" && attributes !== null` guard is absorbed by
`jsonLookup`, which yields nothing on non-objects. -/
def applyAttributes (pin : MapPin) (a : Json) : MapPin :=
  let p1 := match attrString a "color" with
    | some s => { pin with color := some s }
    | none => pin
  let p2 := match attrString a "icon" with
    | some s => { p1 with icon := some s }
    | none => p1
  let p3 := match attrString a "group" with
    | some s => { p2 with group := some s }
    | none => p2
  match attrString a "description" with
  | some s => { p3 with description := some s }
  | none => p3

/-- `parseAttributes` (lines 477–486): empty input decodes to an empty object,
otherwise strict `JSON.parse`; `none` is the thrown `Invalid JSON attributes`. -/
def parseAttributes (attributesStr : String) : Option Json :=
  let t := jsTrim attributesStr
  if t = "" then some (.obj [])
  else jsonParse t

/-- The trailing-JSON match `^(.*)(\{.*\})$` (line 361): with both groups greedy
this splits at the last `{` of a remainder that ends in `}`. -/
def jsonSplitLast (r : String) : Option (String × String) :=
  let cs := r.data
  if cs.getLast? = some '}' ∧ '{' ∈ cs then
    let i := cs.length - 1 - (cs.reverse.takeWhile (· ≠ '{')).length
    some (⟨cs.take i⟩, ⟨cs.drop i⟩)
  else none

/-- `parseRemainderAndApply` (lines 354–402). -/
def parseRemainderAndApply (pin : MapPin) (remainder : String) : Except String MapPin :=
  let rt := jsTrim remainder
  if rt = "" then .ok pin
  else
    match jsonSplitLast rt with
    | some (labelPart, jsonPart) =>
      let pin1 :=
        if jsTrim labelPart ≠ "" then { pin with label := some (parseLabel labelPart) }
        else pin
      match parseAttributes jsonPart with
      | some a => .ok (applyAttributes pin1 a)
      | none => .error "Invalid JSON attributes"
    | none => .ok { pin with label := some (parseLabel rt) }

/-- `parseBracket` (lines 407–424). -/
def parseBracket (latStr lngStr : String) : Except String MapPin :=
  match parseFloat (jsTrim latStr), parseFloat (jsTrim lngStr) with
  | some lat, some lng =>
    if lat < -90 ∨ lat > 90 then .error "Latitude must be between -90 and 90"
    else if lng < -180 ∨ lng > 180 then .error "Longitude must be between -180 and 180"
    else .ok { lat := lat, lng := lng }
  | _, _ => .error "Invalid coordinates"

deriving instance DecidableEq for Except

/-! ### Grid-code (Open Location Code) decoding

Modelled from the spec: §4.2's geocode decoder is provided in the repository by the
external `open-location-code` dependency, which is not among the source files.  The
model below follows the spec's words — a full code (eight alphabet characters
before the `+` separator) decodes deterministically to a rectangular cell whose
center the pin uses; short codes are first recovered against a reference location;
failures carry a cause message.  Precision digits beyond ten are accepted and
ignored, and the recovery step omits the standard's nearest-cell adjustment. -/

/-- The grid-code digit alphabet. -/
def olcAlphabet : List Char := "23456789CFGHJMPQRVWX".data

/-- Modelled from the spec: digit value of an alphabet character. -/
def olcDigitVal (c : Char) : Option ℕ := olcAlphabet.findIdx? (fun x => x = c)

/-- Modelled from the spec: the decoded cell, reduced to the center the caller uses. -/
structure OlcArea where
  latCenter : ℚ
  lngCenter : ℚ
deriving DecidableEq

/-- Degrees per digit pair, most significant first. -/
def olcResolutions : List ℚ := [20, 1, Rat.divInt 1 20, Rat.divInt 1 400, Rat.divInt 1 8000]

/-- Accumulate digit pairs onto the south-west corner, tracking the cell size. -/
def olcAccum : List Char → List ℚ → ℚ × ℚ × ℚ → Option (ℚ × ℚ × ℚ)
  | [], _, acc => some acc
  | la :: lo :: rest, r :: rs, (lat, lng, _) =>
    match olcDigitVal la, olcDigitVal lo with
    | some dla, some dlo =>
      olcAccum rest rs (lat + (dla : ℚ) * r, lng + (dlo : ℚ) * r, r)
    | _, _ => none
  | _, _, _ => none

/-- Modelled from the spec: decode a full grid code to its cell center. -/
def olcDecode (code : String) : Except String OlcArea :=
  let cs := code.data
  let pre := cs.takeWhile (· ≠ '+')
  match cs.dropWhile (· ≠ '+') with
  | '+' :: suffix =>
    if pre.length = 8 ∧ pre.all (fun c => (olcDigitVal c).isSome) ∧
        suffix.all (fun c => (olcDigitVal c).isSome) ∧ suffix.length ≠ 1 then
      match olcAccum (pre ++ suffix.take 2) olcResolutions (-90, -180, 20) with
      | some (latSW, lngSW, cell) =>
        .ok ⟨latSW + cell / 2, lngSW + cell / 2⟩
      | none => .error "Invalid Open Location Code"
    else .error "Invalid Open Location Code"
  | _ => .error "Invalid Open Location Code"

/-- Alphabet character of a digit value. -/
def olcDigitChar (d : ℕ) : Char := olcAlphabet.getD d '2'

/-- Modelled from the spec: the ten-digit code of a location, used to supply the
prefix when recovering a short code. -/
def olcEncode (lat lng : ℚ) : String :=
  let aLat := lat + 90
  let aLng := lng + 180
  let pcs := olcResolutions.map (fun r =>
    (olcDigitChar ((Rat.floor (aLat / r)).toNat % 20),
     olcDigitChar ((Rat.floor (aLng / r)).toNat % 20)))
  let flat := pcs.foldr (fun p acc => p.1 :: p.2 :: acc) []
  ⟨flat.take 8 ++ '+' :: flat.drop 8⟩

/-- Modelled from the spec: recover a short code to a full code near the reference
location, by supplying the missing most-significant digits from the reference. -/
def olcRecoverNearest (shortCode : String) (refLat refLng : ℚ) : Except String String :=
  let cs := shortCode.data
  let pre := cs.takeWhile (· ≠ '+')
  match cs.dropWhile (· ≠ '+') with
  | '+' :: suffix =>
    if pre.all (fun c => (olcDigitVal c).isSome) ∧
        suffix.all (fun c => (olcDigitVal c).isSome) ∧
        pre.length < 8 ∧ 2 ≤ suffix.length then
      .ok ⟨(olcEncode refLat refLng).data.take (8 - pre.length) ++ cs⟩
    else .error "Invalid or unrecoverable short code"
  | _ => .error "Invalid or unrecoverable short code"

/-- The short-code test of `parsePlusCode` (lines 436–437): `indexOf("+") < 8`
(JavaScript's `-1` for a missing separator also passes the test). -/
def plusSepIsShort (code : String) : Bool :=
  match code.data.findIdx? (fun c => c = '+') with
  | some i => i < 8
  | none => true

/-- `parsePlusCode` (lines 430–454): uppercase the code, recover it first when the
`+` sits before index 8 (the New York reference location 40.7589, −73.9851), decode,
and wrap any failure in `Invalid Plus Code: `. -/
def parsePlusCode (plusCode : String) : Except String MapPin :=
  match (if plusSepIsShort (strUpper plusCode)
    then olcRecoverNearest (strUpper plusCode) (407589/10000) (-739851/10000)
    else .ok (strUpper plusCode)) with
  | .error e => .error ("Invalid Plus Code: " ++ e)
  | .ok codeToUse =>
    match olcDecode codeToUse with
    | .error e => .error ("Invalid Plus Code: " ++ e)
    | .ok area => .ok { lat := area.latCenter, lng := area.lngCenter }

/-! ### `parseMapLine` and `parseMapSyntax` -/

/-- Lines 297–348 of `parseMapLine`: everything after the comment has been stripped
off the line — bracket matching, Plus-Code versus coordinate classification,
remainder processing.  (In the source the trailing-comment application sits at the
end of each of the two branches; it is applied once by `parseMapLine` below, which
is the same thing.) -/
def parsePinCore (workingLine : String) : Except String MapPin :=
  match bracketSplit workingLine with
  | some (contents, remainder) =>
    match plusCodeSplit contents with
    | some (codeTok, innerRest) =>
      match parsePlusCode codeTok with
      | .error e => .error e
      | .ok pin0 =>
        let pin1 := { pin0 with plusCode := some (strUpper codeTok) }
        let pin2 :=
          if jsTrim innerRest ≠ "" then { pin1 with label := some (parseLabel innerRest) }
          else pin1
        parseRemainderAndApply pin2 remainder
    | none =>
      match coordSplit contents with
      | some (latStr, lngStr) =>
        match parseBracket latStr lngStr with
        | .error e => .error e
        | .ok pin0 => parseRemainderAndApply pin0 remainder
      | none =>
        .error "Invalid format. Use: [lat, lng] label \x7b\"optional\": \"attributes\"\x7d or [Plus Code] label \x7b\"optional\": \"attributes\"\x7d"
  | none =>
    .error "Invalid format. Use: [lat, lng] label \x7b\"optional\": \"attributes\"\x7d or [Plus Code] label \x7b\"optional\": \"attributes\"\x7d"

/-- `parseMapLine` (lines 285–349): `ok none` is the `null` returned for a blank
line; otherwise the comment is stripped first and, when nonempty, becomes the
pin's description. -/
def parseMapLine (line : String) : Except String (Option MapPin) :=
  if jsTrim line = "" then .ok none
  else
    let wc : String × String :=
      match findCommentIndex line with
      | some i => (jsTrim (strTake line i), jsTrim (strDrop line (i + 1)))
      | none => (line, "")
    match parsePinCore wc.1 with
    | .error e => .error e
    | .ok pin =>
      .ok (some (if wc.2 ≠ "" then { pin with description := some wc.2 } else pin))

/-- `parseYamlConfig` (lines 492–516). -/
def parseYamlConfig (yamlContent : String) : MapConfig :=
  let ls := ((splitNL yamlContent.data).map trimChars).filter (fun l => l ≠ [])
  ls.foldl (fun cfg l =>
    match l.findIdx? (fun c => c = ':') with
    | none => cfg
    | some ci =>
      let key := trimChars (l.take ci)
      let value0 := trimChars (l.drop (ci + 1))
      let value :=
        if (value0.head? = some '"' ∧ value0.getLast? = some '"') ∨
            (value0.head? = some '\'' ∧ value0.getLast? = some '\'')
        then (value0.drop 1).dropLast
        else value0
      if key = "mapLayerURL".data then { cfg with mapLayerURL := some ⟨value⟩ }
      else cfg) {}

/-- First occurrence of `needle` in `hay` at an index `≥ start`
(`String.prototype.indexOf(needle, start)`). -/
def findSubFrom (hay needle : List Char) (start : ℕ) : Option ℕ :=
  (List.range (hay.length + 1)).find? (fun i => start ≤ i ∧ listLeads needle (hay.drop i))

/-- Lines 181–200 of `parseMapSyntax`: YAML-frontmatter extraction.  Returns the
config (when a frontmatter block was found) and the content left to parse.
(`parseYamlConfig` is total, so the source's catch-and-treat-as-content arm is
dead code.) -/
def frontmatterSplit (source : String) : Option MapConfig × String :=
  let t := jsTrim source
  if listLeads "---".data t.data then
    match findSubFrom t.data "---".data 3 with
    | some j =>
      (some (parseYamlConfig (jsTrim ⟨(t.data.drop 3).take (j - 3)⟩)),
       jsTrim ⟨t.data.drop (j + 3)⟩)
    | none => (none, t)
  else (none, t)

/-- The content `parseMapSyntax` actually splits into lines. -/
def mapContent (source : String) : String := (frontmatterSplit source).2

/-- Lines 202–205: split on line breaks, trim, and drop blank lines and full-line
comments. -/
def filteredLines (content : String) : List String :=
  ((splitNL content.data).map (fun l => jsTrim ⟨l⟩)).filter
    (fun l => l ≠ "" ∧ l.data.head? ≠ some '#')

/-- One iteration of the `for (const [lineIndex, line] of lines.entries())` loop
(lines 210–221). -/
def parseStep (acc : List MapPin × List String) (il : ℕ × String) :
    List MapPin × List String :=
  match parseMapLine il.2 with
  | .ok (some p) => (acc.1 ++ [p], acc.2)
  | .ok none => acc
  | .error e => (acc.1, acc.2 ++ ["Line " ++ toString (il.1 + 1) ++ ": " ++ e])

/-- `parseMapSyntax` (lines 180–224). -/
def parseMapSyntax (source : String) : ParsedMapData :=
  let cfg := (frontmatterSplit source).1
  let lines := filteredLines (mapContent source)
  let pe := lines.enum.foldl parseStep ([], [])
  ⟨pe.1, pe.2, cfg⟩

/-! ### Theorems about the parser -/

/-- C5: `parseBracket` validates in a fixed order — unparseable fields first
(`Invalid coordinates`), then the latitude range, then the longitude range; in
particular a line whose latitude and longitude are both out of range reports only
the latitude error (the third conjunct needs no bound on `lng` at all). -/
theorem parseBracket_fixed_check_order :
    (∀ latStr lngStr : String,
      parseFloat (jsTrim latStr) = none ∨ parseFloat (jsTrim lngStr) = none →
      parseBracket latStr lngStr = .error "Invalid coordinates") ∧
    (∀ (latStr lngStr : String) (lat lng : ℚ),
      parseFloat (jsTrim latStr) = some lat →
      parseFloat (jsTrim lngStr) = some lng →
      lat < -90 ∨ lat > 90 →
      parseBracket latStr lngStr = .error "Latitude must be between -90 and 90") ∧
    (∀ (latStr lngStr : String) (lat lng : ℚ),
      parseFloat (jsTrim latStr) = some lat →
      parseFloat (jsTrim lngStr) = some lng →
      -90 ≤ lat → lat ≤ 90 →
      lng < -180 ∨ lng > 180 →
      parseBracket latStr lngStr = .error "Longitude must be between -180 and 180") := by
  refine ⟨?_, ?_, ?_⟩
  · intro latStr lngStr h
    unfold parseBracket
    rcases h with h | h
    · rw [h]
    · rw [h]
      cases parseFloat (jsTrim latStr) <;> rfl
  · intro latStr lngStr lat lng hlat hlng hrange
    unfold parseBracket
    rw [hlat, hlng]
    show (if lat < -90 ∨ lat > 90 then Except.error "Latitude must be between -90 and 90"
      else if lng < -180 ∨ lng > 180 then Except.error "Longitude must be between -180 and 180"
      else _) = _
    rw [if_pos hrange]
  · intro latStr lngStr lat lng hlat hlng hlo hhi hrange
    unfold parseBracket
    rw [hlat, hlng]
    show (if lat < -90 ∨ lat > 90 then Except.error "Latitude must be between -90 and 90"
      else if lng < -180 ∨ lng > 180 then Except.error "Longitude must be between -180 and 180"
      else _) = _
    rw [if_neg (by push_neg; constructor <;> linarith), if_pos hrange]

/-- Witness for C5: latitude 91 and longitude 200 are both out of range, and only
the latitude error is reported. -/
theorem parseBracket_fixed_check_order_witness :
    parseFloat (jsTrim "91") = some 91 ∧ parseFloat (jsTrim "200") = some 200 ∧
    ((91 : ℚ) < -90 ∨ (91 : ℚ) > 90) ∧ ((200 : ℚ) < -180 ∨ (200 : ℚ) > 180) ∧
    parseBracket "91" "200" = .error "Latitude must be between -90 and 90" :=
  ⟨by decide, by decide, by decide, by decide,
    parseBracket_fixed_check_order.2.1 "91" "200" 91 200 (by decide) (by decide) (by decide)⟩

theorem findCommentIndexGo_mem {cs : List Char} {st : ScanState} {base i : ℕ}
    (h : findCommentIndexGo st base cs = some i) : '#' ∈ cs := by
  induction cs generalizing st base with
  | nil => simp [findCommentIndexGo] at h
  | cons c rest ih =>
    rw [findCommentIndexGo] at h
    split at h
    · rename_i hcond
      exact hcond.2.2.2 ▸ List.mem_cons_self c rest
    · exact List.mem_cons_of_mem c (ih h)

theorem mem_trimChars {c : Char} {cs : List Char} (hmem : c ∈ cs)
    (hws : isJsWs c = false) : c ∈ trimChars cs := by
  have hdrop : ∀ l : List Char, c ∈ l → c ∈ l.dropWhile isJsWs := by
    intro l hl
    induction l with
    | nil => simp at hl
    | cons a t ih =>
      rcases List.mem_cons.mp hl with rfl | ht
      · by_cases ha : isJsWs c
        · rw [hws] at ha; cases ha
        · rw [List.dropWhile_cons, if_neg (by simpa using ha)]
          exact List.mem_cons_self _ _
      · by_cases ha : isJsWs a
        · rw [List.dropWhile_cons, if_pos (by simpa using ha)]
          exact ih ht
        · rw [List.dropWhile_cons, if_neg (by simpa using ha)]
          exact List.mem_cons_of_mem _ ht
  unfold trimChars
  rw [List.mem_reverse]
  exact hdrop _ (by rw [List.mem_reverse]; exact hdrop _ hmem)

theorem jsTrim_ne_empty_of_comment {line : String} {i : ℕ}
    (h : findCommentIndex line = some i) : jsTrim line ≠ "" := by
  have hmem : '#' ∈ line.data := findCommentIndexGo_mem h
  have : '#' ∈ trimChars line.data := mem_trimChars hmem (by decide)
  intro hcontra
  unfold jsTrim at hcontra
  have : '#' ∈ ("" : String).data := by rw [← hcontra]; exact this
  simp at this

/-- C6: when a trailing comment is stripped from a line, a nonempty (after
trimming) comment becomes the pin's description — overwriting any description the
rest of the line (for instance its JSON attribute block) had produced — while an
empty stripped comment (a bare trailing `#`) leaves the pin, including any
JSON-set description, unchanged. -/
theorem comment_description_precedence :
    ∀ (line : String) (i : ℕ) (pin : MapPin),
      findCommentIndex line = some i →
      parsePinCore (jsTrim (strTake line i)) = .ok pin →
      parseMapLine line =
        .ok (some (if jsTrim (strDrop line (i + 1)) ≠ ""
          then { pin with description := some (jsTrim (strDrop line (i + 1))) }
          else pin)) := by
  intro line i pin hidx hpin
  unfold parseMapLine
  rw [if_neg (jsTrim_ne_empty_of_comment hidx), hidx]
  simp only [hpin]

/-- Witness for C6: a JSON-set description `A` is overwritten by the trailing
comment `B`. -/
theorem comment_description_precedence_witness :
    findCommentIndex "[40.7589, -73.9851] \x7b\x22description\x22: \x22A\x22\x7d # B" = some 41 ∧
    parsePinCore (jsTrim (strTake "[40.7589, -73.9851] \x7b\x22description\x22: \x22A\x22\x7d # B" 41)) =
      .ok ({ lat := 407589/10000, lng := -739851/10000, description := some "A" } : MapPin) ∧
    parseMapLine "[40.7589, -73.9851] \x7b\x22description\x22: \x22A\x22\x7d # B" =
      .ok (some (if jsTrim (strDrop "[40.7589, -73.9851] \x7b\x22description\x22: \x22A\x22\x7d # B" 42) ≠ ""
        then ({ lat := 407589/10000, lng := -739851/10000,
                description := some (jsTrim (strDrop "[40.7589, -73.9851] \x7b\x22description\x22: \x22A\x22\x7d # B" 42)) } : MapPin)
        else { lat := 407589/10000, lng := -739851/10000, description := some "A" })) :=
  ⟨by decide, by decide,
    comment_description_precedence _ 41
      { lat := 407589/10000, lng := -739851/10000, description := some "A" }
      (by decide) (by decide)⟩

/-- `clearHashAt` generalized to an arbitrary starting scanner state. -/
@[reducible] def clearFrom (st : ScanState) (cs : List Char) (j : ℕ) : Prop :=
  cs.get? j = some '#' ∧ ((cs.take j).foldl scanStep st).escaped = false ∧
    ((cs.take j).foldl scanStep st).insideQuotes = false ∧
    ((cs.take j).foldl scanStep st).braceDepth = 0

theorem findGo_some_iff (cs : List Char) : ∀ (st : ScanState) (base r : ℕ),
    findCommentIndexGo st base cs = some r ↔
      ∃ j, r = base + j ∧ clearFrom st cs j ∧ ∀ k < j, ¬ clearFrom st cs k := by
  induction cs with
  | nil =>
    intro st base r
    constructor
    · intro h
      simp [findCommentIndexGo] at h
    · rintro ⟨j, _, ⟨hget, _⟩, _⟩
      simp at hget
  | cons c rest ih =>
    intro st base r
    show (if st.escaped = false ∧ st.insideQuotes = false ∧ st.braceDepth = 0 ∧ c = '#'
      then some base else findCommentIndexGo (scanStep st c) (base + 1) rest) = some r ↔ _
    by_cases hcond : st.escaped = false ∧ st.insideQuotes = false ∧ st.braceDepth = 0 ∧ c = '#'
    · rw [if_pos hcond]
      have hc0 : clearFrom st (c :: rest) 0 :=
        ⟨by simp [hcond.2.2.2], hcond.1, hcond.2.1, hcond.2.2.1⟩
      constructor
      · intro h
        have hr : base = r := by simpa using h
        exact ⟨0, by omega, hc0, fun k hk => absurd hk (Nat.not_lt_zero k)⟩
      · rintro ⟨j, hj, hcj, hmin⟩
        have hj0 : j = 0 := by
          by_contra hne
          exact hmin 0 (Nat.pos_of_ne_zero hne) hc0
        subst hj0
        simp [hj]
    · rw [if_neg hcond]
      have hshift : ∀ j, clearFrom st (c :: rest) (j + 1) ↔ clearFrom (scanStep st c) rest j :=
        fun j => Iff.rfl
      have hnot0 : ¬ clearFrom st (c :: rest) 0 := by
        rintro ⟨hget, h1, h2, h3⟩
        simp only [List.get?] at hget
        exact hcond ⟨h1, h2, h3, by injection hget⟩
      rw [ih (scanStep st c) (base + 1) r]
      constructor
      · rintro ⟨j, hj, hcj, hmin⟩
        refine ⟨j + 1, by omega, (hshift j).mpr hcj, ?_⟩
        intro k hk
        match k with
        | 0 => exact hnot0
        | k + 1 => exact fun hc => hmin k (by omega) ((hshift k).mp hc)
      · rintro ⟨j, hj, hcj, hmin⟩
        match j with
        | 0 => exact absurd hcj hnot0
        | j + 1 =>
          refine ⟨j, by omega, (hshift j).mp hcj, ?_⟩
          intro k hk hc
          exact hmin (k + 1) (by omega) ((hshift k).mpr hc)

/-- C8: `findCommentIndex` returns exactly the first position holding a `#` that
the left-to-right scan (quote state, escape flag, brace depth — all tracked before
any other parsing looks at the line) finds outside every quoted string and every
`{...}` block; in particular the `#` of a hex color inside a JSON attribute value
is never taken, as the concrete conjunct shows. -/
theorem findCommentIndex_first_unquoted_unbraced_hash :
    (∀ (line : String) (i : ℕ), findCommentIndex line = some i ↔
      (clearHashAt line.data i ∧ ∀ j < i, ¬ clearHashAt line.data j)) ∧
    findCommentIndex "[1, 2] \x7b\x22color\x22: \x22#ff0000\x22\x7d # note" = some 28 := by
  constructor
  · intro line i
    rw [findCommentIndex, findGo_some_iff]
    constructor
    · rintro ⟨j, hj, hc, hm⟩
      have : j = i := by omega
      subst this
      exact ⟨hc, hm⟩
    · rintro ⟨hc, hm⟩
      exact ⟨i, by omega, hc, hm⟩
  · decide

theorem attrString_eq_some {a : Json} {k s : String} (h : attrString a k = some s) :
    jsonLookup a k = some (Json.str s) ∧ s ≠ "" := by
  unfold attrString at h
  match hjl : jsonLookup a k with
  | none => rw [hjl] at h; cases h
  | some Json.null | some (Json.bool _) | some (Json.num _)
  | some (Json.arr _) | some (Json.obj _) => rw [hjl] at h; cases h
  | some (Json.str t) =>
    rw [hjl] at h
    by_cases ht : t = ""
    · simp [ht] at h
    · simp [ht] at h
      subst h
      exact ⟨rfl, ht⟩

theorem applyAttributes_fields (pin : MapPin) (a : Json) :
    (applyAttributes pin a).lat = pin.lat ∧
    (applyAttributes pin a).lng = pin.lng ∧
    (applyAttributes pin a).label = pin.label ∧
    (applyAttributes pin a).plusCode = pin.plusCode ∧
    ((applyAttributes pin a).color = pin.color ∨
      ∃ s, attrString a "color" = some s ∧ (applyAttributes pin a).color = some s) ∧
    ((applyAttributes pin a).icon = pin.icon ∨
      ∃ s, attrString a "icon" = some s ∧ (applyAttributes pin a).icon = some s) ∧
    ((applyAttributes pin a).group = pin.group ∨
      ∃ s, attrString a "group" = some s ∧ (applyAttributes pin a).group = some s) ∧
    ((applyAttributes pin a).description = pin.description ∨
      ∃ s, attrString a "description" = some s ∧
        (applyAttributes pin a).description = some s) := by
  unfold applyAttributes
  cases hc : attrString a "color" <;> cases hi : attrString a "icon" <;>
    cases hg : attrString a "group" <;> cases hd : attrString a "description" <;>
      simp_all

/-- C7: when the trimmed remainder of a line ends in a brace block that decodes as
a JSON object, the line never errors there, and of the whole object only the keys
`color`, `icon`, `group`, `description` can reach the pin — each only through a
(nonempty) string value at that key; every other key and every non-string value
is discarded, and the non-attribute fields of the pin are untouched (the label is
set from the text before the block exactly when that text is nonempty). -/
theorem attributes_allowlist_string_only :
    ∀ (pin : MapPin) (remainder labelPart jsonPart : String) (kvs : List (String × Json)),
      jsonSplitLast (jsTrim remainder) = some (labelPart, jsonPart) →
      parseAttributes jsonPart = some (Json.obj kvs) →
      ∃ p', parseRemainderAndApply pin remainder = .ok p' ∧
        p'.lat = pin.lat ∧ p'.lng = pin.lng ∧ p'.plusCode = pin.plusCode ∧
        p'.label = (if jsTrim labelPart ≠ "" then some (parseLabel labelPart) else pin.label) ∧
        (p'.color = pin.color ∨ ∃ s, jsonLookup (Json.obj kvs) "color" = some (Json.str s) ∧
          s ≠ "" ∧ p'.color = some s) ∧
        (p'.icon = pin.icon ∨ ∃ s, jsonLookup (Json.obj kvs) "icon" = some (Json.str s) ∧
          s ≠ "" ∧ p'.icon = some s) ∧
        (p'.group = pin.group ∨ ∃ s, jsonLookup (Json.obj kvs) "group" = some (Json.str s) ∧
          s ≠ "" ∧ p'.group = some s) ∧
        (p'.description = pin.description ∨
          ∃ s, jsonLookup (Json.obj kvs) "description" = some (Json.str s) ∧
            s ≠ "" ∧ p'.description = some s) := by
  intro pin remainder labelPart jsonPart kvs hsplit hjson
  have hrt : jsTrim remainder ≠ "" := by
    intro hempty
    rw [hempty] at hsplit
    cases hsplit
  refine ⟨applyAttributes
    (if jsTrim labelPart ≠ "" then { pin with label := some (parseLabel labelPart) } else pin)
    (Json.obj kvs), ?_, ?_⟩
  · unfold parseRemainderAndApply
    rw [if_neg hrt, hsplit]
    simp only [hjson]
  · set pin1 := if jsTrim labelPart ≠ ""
      then { pin with label := some (parseLabel labelPart) } else pin with hpin1
    have hfields := applyAttributes_fields pin1 (Json.obj kvs)
    have hbase : pin1.lat = pin.lat ∧ pin1.lng = pin.lng ∧ pin1.plusCode = pin.plusCode ∧
        pin1.color = pin.color ∧ pin1.icon = pin.icon ∧ pin1.group = pin.group ∧
        pin1.description = pin.description ∧
        pin1.label = (if jsTrim labelPart ≠ "" then some (parseLabel labelPart)
          else pin.label) := by
      rw [hpin1]
      by_cases hl : jsTrim labelPart ≠ "" <;> simp [hl]
    obtain ⟨f1, f2, f3, f4, f5, f6, f7, f8⟩ := hfields
    refine ⟨by rw [f1, hbase.1], by rw [f2, hbase.2.1], by rw [f4, hbase.2.2.1],
      by rw [f3, hbase.2.2.2.2.2.2.2], ?_, ?_, ?_, ?_⟩
    · rcases f5 with h | ⟨s, hs, hps⟩
      · exact Or.inl (by rw [h, hbase.2.2.2.1])
      · obtain ⟨hlook, hne⟩ := attrString_eq_some hs
        exact Or.inr ⟨s, hlook, hne, hps⟩
    · rcases f6 with h | ⟨s, hs, hps⟩
      · exact Or.inl (by rw [h, hbase.2.2.2.2.1])
      · obtain ⟨hlook, hne⟩ := attrString_eq_some hs
        exact Or.inr ⟨s, hlook, hne, hps⟩
    · rcases f7 with h | ⟨s, hs, hps⟩
      · exact Or.inl (by rw [h, hbase.2.2.2.2.2.1])
      · obtain ⟨hlook, hne⟩ := attrString_eq_some hs
        exact Or.inr ⟨s, hlook, hne, hps⟩
    · rcases f8 with h | ⟨s, hs, hps⟩
      · exact Or.inl (by rw [h, hbase.2.2.2.2.2.2.1])
      · obtain ⟨hlook, hne⟩ := attrString_eq_some hs
        exact Or.inr ⟨s, hlook, hne, hps⟩

/-- Witness for C7: a remainder whose JSON block carries an unknown key and a
non-string `icon` next to a valid `color`. -/
theorem attributes_allowlist_string_only_witness :
    jsonSplitLast (jsTrim " Spot \x7b\x22color\x22: \x22red\x22, \x22size\x22: 5, \x22icon\x22: true\x7d") =
      some ("Spot ", "\x7b\x22color\x22: \x22red\x22, \x22size\x22: 5, \x22icon\x22: true\x7d") ∧
    parseAttributes "\x7b\x22color\x22: \x22red\x22, \x22size\x22: 5, \x22icon\x22: true\x7d" =
      some (Json.obj [("color", Json.str "red"), ("size", Json.num 5),
        ("icon", Json.bool true)]) ∧
    (∃ p', parseRemainderAndApply { lat := 1, lng := 2 }
        " Spot \x7b\x22color\x22: \x22red\x22, \x22size\x22: 5, \x22icon\x22: true\x7d" = .ok p' ∧
      p'.lat = (1 : ℚ) ∧ p'.lng = (2 : ℚ) ∧ p'.plusCode = none ∧
      p'.label = (if jsTrim "Spot " ≠ "" then some (parseLabel "Spot ") else none) ∧
      (p'.color = none ∨ ∃ s, jsonLookup (Json.obj [("color", Json.str "red"),
        ("size", Json.num 5), ("icon", Json.bool true)]) "color" = some (Json.str s) ∧
        s ≠ "" ∧ p'.color = some s) ∧
      (p'.icon = none ∨ ∃ s, jsonLookup (Json.obj [("color", Json.str "red"),
        ("size", Json.num 5), ("icon", Json.bool true)]) "icon" = some (Json.str s) ∧
        s ≠ "" ∧ p'.icon = some s) ∧
      (p'.group = none ∨ ∃ s, jsonLookup (Json.obj [("color", Json.str "red"),
        ("size", Json.num 5), ("icon", Json.bool true)]) "group" = some (Json.str s) ∧
        s ≠ "" ∧ p'.group = some s) ∧
      (p'.description = none ∨ ∃ s, jsonLookup (Json.obj [("color", Json.str "red"),
        ("size", Json.num 5), ("icon", Json.bool true)]) "description" = some (Json.str s) ∧
        s ≠ "" ∧ p'.description = some s)) :=
  ⟨by rfl, by rfl,
    attributes_allowlist_string_only { lat := 1, lng := 2 }
      " Spot \x7b\x22color\x22: \x22red\x22, \x22size\x22: 5, \x22icon\x22: true\x7d"
      "Spot " "\x7b\x22color\x22: \x22red\x22, \x22size\x22: 5, \x22icon\x22: true\x7d"
      [("color", Json.str "red"), ("size", Json.num 5), ("icon", Json.bool true)]
      (by rfl) (by rfl)⟩

theorem parseRemainderAndApply_plusCode {pin : MapPin} {rem : String} {p : MapPin}
    (h : parseRemainderAndApply pin rem = .ok p) : p.plusCode = pin.plusCode := by
  unfold parseRemainderAndApply at h
  by_cases hrt : jsTrim rem = ""
  · rw [if_pos hrt] at h
    injection h with h
    rw [← h]
  · rw [if_neg hrt] at h
    match hsplit : jsonSplitLast (jsTrim rem) with
    | some (lp, jp) =>
      rw [hsplit] at h
      match hpa : parseAttributes jp with
      | some a =>
        simp only [hpa] at h
        injection h with h
        rw [← h]
        exact (applyAttributes_fields _ a).2.2.2.1.trans
          (by by_cases hl : jsTrim lp ≠ "" <;> simp [hl])
      | none =>
        simp only [hpa] at h
        exact Except.noConfusion h
    | none =>
      rw [hsplit] at h
      injection h with h
      rw [← h]

/-- C9: for every line whose bracket contents match the grid-code pattern, the
resulting pin stores the code token canonicalized to uppercase; `parsePlusCode`
recovers a code whose run before `+` is shorter than 8 characters against the
fixed reference location before decoding, takes the decoded cell's center as the
pin's coordinates, and turns any recovery or decode failure into an error
beginning `Invalid Plus Code: ` that carries the underlying cause. -/
theorem grid_code_pin_construction :
    ∀ (w contents rem codeTok lbl : String),
      bracketSplit w = some (contents, rem) →
      plusCodeSplit contents = some (codeTok, lbl) →
      (∀ p : MapPin, parsePinCore w = .ok p → p.plusCode = some (strUpper codeTok)) ∧
      (∀ e, parsePlusCode codeTok = .error e →
        ∃ cause, e = "Invalid Plus Code: " ++ cause) ∧
      (∀ p : MapPin, parsePlusCode codeTok = .ok p →
        ∃ used area, olcDecode used = .ok area ∧
          p.lat = area.latCenter ∧ p.lng = area.lngCenter ∧
          ((plusSepIsShort (strUpper codeTok) = true ∧
            olcRecoverNearest (strUpper codeTok) (407589/10000) (-739851/10000) = .ok used) ∨
           (plusSepIsShort (strUpper codeTok) = false ∧ used = strUpper codeTok))) := by
  intro w contents rem codeTok lbl hbr hpc
  refine ⟨?_, ?_, ?_⟩
  · intro p hp
    unfold parsePinCore at hp
    rw [hbr] at hp
    simp only [hpc] at hp
    match hplus : parsePlusCode codeTok with
    | .error e =>
      simp only [hplus] at hp
      exact Except.noConfusion hp
    | .ok pin0 =>
      simp only [hplus] at hp
      rw [parseRemainderAndApply_plusCode hp]
      by_cases hl : jsTrim lbl ≠ "" <;> simp [hl]
  · intro e he
    unfold parsePlusCode at he
    by_cases hs : plusSepIsShort (strUpper codeTok)
    · rw [if_pos hs] at he
      match hrec : olcRecoverNearest (strUpper codeTok) (407589/10000) (-739851/10000) with
      | .error c =>
        simp only [hrec] at he
        injection he with he
        exact ⟨c, he.symm⟩
      | .ok codeToUse =>
        simp only [hrec] at he
        match hdec : olcDecode codeToUse with
        | .error c =>
          simp only [hdec] at he
          injection he with he
          exact ⟨c, he.symm⟩
        | .ok area =>
          simp only [hdec] at he
          exact Except.noConfusion he
    · rw [if_neg hs] at he
      match hdec : olcDecode (strUpper codeTok) with
      | .error c =>
        simp only [hdec] at he
        injection he with he
        exact ⟨c, he.symm⟩
      | .ok area =>
        simp only [hdec] at he
        exact Except.noConfusion he
  · intro p hp
    unfold parsePlusCode at hp
    by_cases hs : plusSepIsShort (strUpper codeTok)
    · rw [if_pos hs] at hp
      match hrec : olcRecoverNearest (strUpper codeTok) (407589/10000) (-739851/10000) with
      | .error c =>
        simp only [hrec] at hp
        exact Except.noConfusion hp
      | .ok codeToUse =>
        simp only [hrec] at hp
        match hdec : olcDecode codeToUse with
        | .error c =>
          simp only [hdec] at hp
          exact Except.noConfusion hp
        | .ok area =>
          simp only [hdec] at hp
          injection hp with hp
          exact ⟨codeToUse, area, hdec, by rw [← hp], by rw [← hp], Or.inl ⟨hs, rfl⟩⟩
    · rw [if_neg hs] at hp
      match hdec : olcDecode (strUpper codeTok) with
      | .error c =>
        simp only [hdec] at hp
        exact Except.noConfusion hp
      | .ok area =>
        simp only [hdec] at hp
        injection hp with hp
        exact ⟨strUpper codeTok, area, hdec, by rw [← hp], by rw [← hp],
          Or.inr ⟨by simpa using hs, rfl⟩⟩

/-- Witness for C9: the short code `87g8+q9` with an inner label. -/
theorem grid_code_pin_construction_witness :
    bracketSplit "[87g8+q9 New York, NY]" = some ("87g8+q9 New York, NY", "") ∧
    plusCodeSplit "87g8+q9 New York, NY" = some ("87g8+q9", " New York, NY") ∧
    ((∀ p : MapPin, parsePinCore "[87g8+q9 New York, NY]" = .ok p →
        p.plusCode = some (strUpper "87g8+q9")) ∧
      (∀ e, parsePlusCode "87g8+q9" = .error e →
        ∃ cause, e = "Invalid Plus Code: " ++ cause) ∧
      (∀ p : MapPin, parsePlusCode "87g8+q9" = .ok p →
        ∃ used area, olcDecode used = .ok area ∧
          p.lat = area.latCenter ∧ p.lng = area.lngCenter ∧
          ((plusSepIsShort (strUpper "87g8+q9") = true ∧
            olcRecoverNearest (strUpper "87g8+q9") (407589/10000) (-739851/10000) = .ok used) ∨
           (plusSepIsShort (strUpper "87g8+q9") = false ∧ used = strUpper "87g8+q9")))) :=
  ⟨by decide, by decide,
    grid_code_pin_construction "[87g8+q9 New York, NY]" "87g8+q9 New York, NY" ""
      "87g8+q9" " New York, NY" (by decide) (by decide)⟩

theorem parseLoop_spec (L : List String) : ∀ (n : ℕ) (accP : List MapPin) (accE : List String),
    (List.enumFrom n L).foldl parseStep (accP, accE) =
      (accP ++ L.filterMap (fun l =>
          match parseMapLine l with
          | .ok (some p) => some p
          | _ => none),
       accE ++ (List.enumFrom n L).filterMap (fun il =>
          match parseMapLine il.2 with
          | .error e => some ("Line " ++ toString (il.1 + 1) ++ ": " ++ e)
          | _ => none)) := by
  induction L with
  | nil =>
    intro n accP accE
    simp [List.enumFrom]
  | cons l t ih =>
    intro n accP accE
    have hstep : (List.enumFrom n (l :: t)).foldl parseStep (accP, accE) =
        (List.enumFrom (n + 1) t).foldl parseStep (parseStep (accP, accE) (n, l)) := rfl
    rw [hstep]
    match hml : parseMapLine l with
    | .ok (some p) =>
      have h1 : parseStep (accP, accE) (n, l) = (accP ++ [p], accE) := by
        unfold parseStep
        rw [hml]
      rw [h1, ih]
      simp [List.filterMap_cons, hml, List.enumFrom]
    | .ok none =>
      have h1 : parseStep (accP, accE) (n, l) = (accP, accE) := by
        unfold parseStep
        rw [hml]
      rw [h1, ih]
      simp [List.filterMap_cons, hml, List.enumFrom]
    | .error e =>
      have h1 : parseStep (accP, accE) (n, l) =
          (accP, accE ++ ["Line " ++ toString (n + 1) ++ ": " ++ e]) := by
        unfold parseStep
        rw [hml]
      rw [h1, ih]
      simp [List.filterMap_cons, hml, List.enumFrom]

theorem parseLoop_count (L : List String) (hL : ∀ l ∈ L, parseMapLine l ≠ .ok none) :
    ∀ n, (L.filterMap (fun l =>
        match parseMapLine l with
        | .ok (some p) => some p
        | _ => none)).length +
      ((List.enumFrom n L).filterMap (fun il =>
        match parseMapLine il.2 with
        | .error e => some ("Line " ++ toString (il.1 + 1) ++ ": " ++ e)
        | _ => none)).length = L.length := by
  induction L with
  | nil =>
    intro n
    simp [List.enumFrom]
  | cons l t ih =>
    intro n
    have ht : ∀ x ∈ t, parseMapLine x ≠ .ok none :=
      fun x hx => hL x (List.mem_cons_of_mem l hx)
    match hml : parseMapLine l with
    | .ok (some p) =>
      simp only [List.enumFrom, List.filterMap_cons, hml, List.length_cons]
      have := ih ht (n + 1)
      omega
    | .ok none => exact absurd hml (hL l (List.mem_cons_self l t))
    | .error e =>
      simp only [List.enumFrom, List.filterMap_cons, hml, List.length_cons]
      have := ih ht (n + 1)
      omega

theorem filteredLines_no_blank {c l : String} (h : l ∈ filteredLines c) :
    parseMapLine l ≠ .ok none := by
  unfold filteredLines at h
  rw [List.mem_filter] at h
  obtain ⟨hmem, hpred⟩ := h
  rw [List.mem_map] at hmem
  obtain ⟨raw, _, hraw⟩ := hmem
  simp only [decide_eq_true_eq] at hpred
  have hne : jsTrim l = l ∧ l ≠ "" := by
    refine ⟨?_, hpred.1⟩
    rw [← hraw]
    exact jsTrim_idem _
  unfold parseMapLine
  rw [if_neg (by rw [hne.1]; exact hne.2)]
  generalize (match findCommentIndex l with
    | some i => (jsTrim (strTake l i), jsTrim (strDrop l (i + 1)))
    | none => (l, "")) = wc
  cases hcore : parsePinCore wc.1 <;> simp [hcore]

/-- C3: after the preprocessing of `parseMapSyntax` — splitting the content on line
breaks, trimming each line and discarding blank and `#`-prefixed lines — every
remaining line contributes exactly one pin or exactly one error, never both and
never neither, so `pins.length + errors.length` equals the filtered-line count;
pins keep line order, and each error message is prefixed with the 1-based index of
its line within the filtered list. -/
theorem parseMapSyntax_per_line_accounting :
    ∀ source : String,
      (parseMapSyntax source).pins.length + (parseMapSyntax source).errors.length =
        (filteredLines (mapContent source)).length ∧
      (parseMapSyntax source).pins =
        (filteredLines (mapContent source)).filterMap (fun l =>
          match parseMapLine l with
          | .ok (some p) => some p
          | _ => none) ∧
      (parseMapSyntax source).errors =
        (List.enumFrom 0 (filteredLines (mapContent source))).filterMap (fun il =>
          match parseMapLine il.2 with
          | .error e => some ("Line " ++ toString (il.1 + 1) ++ ": " ++ e)
          | _ => none) := by
  intro source
  have hfold := parseLoop_spec (filteredLines (mapContent source)) 0 [] []
  have hpins : (parseMapSyntax source).pins =
      ((List.enumFrom 0 (filteredLines (mapContent source))).foldl parseStep ([], [])).1 := rfl
  have herrs : (parseMapSyntax source).errors =
      ((List.enumFrom 0 (filteredLines (mapContent source))).foldl parseStep ([], [])).2 := rfl
  refine ⟨?_, ?_, ?_⟩
  · rw [hpins, herrs, hfold]
    simp only [List.nil_append]
    exact parseLoop_count _ (fun l hl => filteredLines_no_blank hl) 0
  · rw [hpins, hfold]
    simp
  · rw [herrs, hfold]
    simp

end MapPlugin
